import Mathlib

/-!
Shallow embedding of the toolkit library (tools.go) and verification of its
natural-language specification.

Modelling conventions:
* Pure string manipulation (Slugify, filename renaming, extension splitting)
  is translated directly from the source.
* Operating-system and network effects (file handles, the multipart parser,
  the JSON decoder, the HTTP client) are modelled by explicit outcome
  oracles stored in the input structures: each fallible external step is a
  field holding the error the corresponding Go call would return, with
  none meaning success.  The control flow around those outcomes is
  translated from the source line by line.
* Go machine integers are modelled as Nat; where Go truncates to 64 bits
  (big.Int.Uint64) the reduction modulo 2^64 is written explicitly.
* Go nil slices are modelled as the empty list.
-/

/-- Alphabet used by RandomString, copied verbatim from the source constant
randomStringSource. -/
def randomStringSource : String :=
  "abcdefghijklmnopqrstuvwxyzABCDEFGHIJKLMNOPQRSTUVWXYZ0123456789_+-="

/-- Configuration struct Tools from the source. -/
structure Tools where
  AllowedFileTypes : List String
  MaxFileSize : Nat
  MaxJSONPayloadSize : Nat
  AllowUnknownFields : Bool
deriving DecidableEq

/-- Index computed for one character of RandomString: the drawn prime p
(from rand.Prime(rand.Reader, len(r)) with len(r) = 66) is truncated to a
uint64 by p.Uint64(), then reduced modulo the alphabet length, mirroring
x, y := p.Uint64(), uint64(len(r)); r[x%y]. -/
def randomIndex (draws : Nat → Nat) (i : Nat) : Nat :=
  (draws i % 18446744073709551616) % randomStringSource.data.length

/-- Method RandomString: builds a string of n characters, character i being
the alphabet rune at randomIndex.  The cryptographic source is modelled by
the oracle draws giving the prime produced for position i; the logged
entropy-failure path (which would leave p nil) is not modelled. -/
def RandomString (_t : Tools) (draws : Nat → Nat) (n : Nat) : String :=
  String.mk ((List.range n).map fun i =>
    randomStringSource.data.getD (randomIndex draws i) 'a')

/-- Record UploadedFile from the source. -/
structure UploadedFile where
  NewFileName : String
  OriginalFileName : String
  FileSize : Nat
deriving DecidableEq

/-- One multipart file part together with the outcomes of the external
calls made while processing it: hdr.Open, the 512-byte Read, the sniffed
content type http.DetectContentType returns for those bytes, inFile.Seek,
os.Create, and io.Copy (whose byte count on success is size).  The draws
oracle feeds t.RandomString when the randomString rename pattern runs. -/
structure FilePart where
  filename : String
  sniffedType : String
  openErr : Option String
  readErr : Option String
  seekErr : Option String
  createErr : Option String
  copyErr : Option String
  size : Nat
  draws : Nat → Nat

/-- Parsed multipart request: parseErr models r.ParseMultipartForm failing,
and parts lists the file headers in the order the double loop over
r.MultipartForm.File visits them. -/
structure MultipartRequest where
  parseErr : Bool
  parts : List FilePart

/-- Character-level ASCII lowercasing, the ASCII case of the folding done by
strings.EqualFold and strings.ToLower. -/
def asciiLowerChar (c : Char) : Char :=
  if 'A' ≤ c ∧ c ≤ 'Z' then Char.ofNat (c.toNat + 32) else c

/-- Models strings.EqualFold restricted to ASCII simple folding; the MIME
type strings compared in the source are ASCII. -/
def equalFold (a b : String) : Bool :=
  a.data.map asciiLowerChar == b.data.map asciiLowerChar

/-- Extraction of the type-permission check of UploadFiles (lines 103-116):
isAllowed starts false, a loop over t.AllowedFileTypes sets it on a
strings.EqualFold match, and an empty list allows everything. -/
def isAllowedType (t : Tools) (fileType : String) : Bool :=
  if t.AllowedFileTypes.length > 0 then
    t.AllowedFileTypes.any fun ft => equalFold fileType ft
  else true

/-- Models unicode lowercasing as used by strings.ToLower, covering the
ASCII and Greek capital ranges exercised by this library (identity on other
characters). -/
def goToLower (c : Char) : Char :=
  if 'A' ≤ c ∧ c ≤ 'Z' then Char.ofNat (c.toNat + 32)
  else if 913 ≤ c.toNat ∧ c.toNat ≤ 939 ∧ c.toNat ≠ 930 then Char.ofNat (c.toNat + 32)
  else c

/-- Models regexp.ReplaceAllString for a pattern of shape [^X]+ with a
one-character replacement: every maximal run of characters rejected by keep
becomes the single character rep.  The Bool flag records whether the
previous character was inside such a run. -/
def collapseRuns (keep : Char → Bool) (rep : Char) : List Char → Bool → List Char
  | [], _ => []
  | c :: rest, inRun =>
    if keep c then c :: collapseRuns keep rep rest false
    else if inRun then collapseRuns keep rep rest true
    else rep :: collapseRuns keep rep rest true

/-- Removes the trailing run of characters satisfying q. -/
def dropTrailing (q : Char → Bool) : List Char → List Char
  | [] => []
  | c :: rest =>
    match dropTrailing q rest with
    | [] => if q c then [] else [c]
    | r => c :: r

/-- Models strings.Trim with a one-character cutset: strips the leading and
trailing runs of that character. -/
def trimChar (cut : Char) (cs : List Char) : List Char :=
  dropTrailing (fun x => x == cut) (cs.dropWhile fun x => x == cut)

/-- Character class of the rename regexp [^a-zA-Z\-\d]+ in UploadFiles:
keep returns true exactly on the characters the regexp does NOT match. -/
def rexKeep (c : Char) : Bool :=
  ('a' ≤ c && c ≤ 'z') || ('A' ≤ c && c ≤ 'Z') || (c == '-') || ('0' ≤ c && c ≤ '9')

/-- Models filepath.Ext: the suffix of the last path element starting at its
final dot, empty when the last element has no dot.  Scans from the end,
stopping at a path separator, as the Go implementation does. -/
def filepathExtGo : List Char → List Char → String
  | [], _ => ""
  | c :: rest, acc =>
    if c = '/' then ""
    else if c = '.' then String.mk (c :: acc)
    else filepathExtGo rest (c :: acc)

/-- Entry point for the filepath.Ext model. -/
def filepathExt (s : String) : String :=
  filepathExtGo s.data.reverse []

/-- Models strings.TrimSuffix: removes ext from the end of s when s ends
with it, otherwise returns s unchanged. -/
def trimSuffixStr (s ext : String) : String :=
  if ext.data.isSuffixOf s.data then
    String.mk (s.data.take (s.data.length - ext.data.length))
  else s

/-- The anonymous per-part closure of UploadFiles (lines 86-173): opens the
header, reads and sniffs the first 512 bytes, enforces the type check,
seeks back, computes the new file name by the rename switch, creates the
destination and copies the stream, and finally appends the record.  Every
error path returns the Go pair (nil, err), modelled as ([], some err). -/
def uploadClosure (t : Tools) (renameFile : String)
    (uploadedFiles : List UploadedFile) (hdr : FilePart) :
    List UploadedFile × Option String :=
  match hdr.openErr with
  | some e => ([], some e)
  | none =>
    match hdr.readErr with
    | some e => ([], some e)
    | none =>
      let fileType := hdr.sniffedType
      let isAllowed := isAllowedType t fileType
      if !isAllowed then ([], some "the uploaded file type is not permitted")
      else
        match hdr.seekErr with
        | some e => ([], some e)
        | none =>
          let ext := filepathExt hdr.filename
          let name := trimSuffixStr hdr.filename ext
          let newFileName :=
            match renameFile with
            | "noSpaces:retainCase" =>
                String.mk (trimChar '_' (collapseRuns rexKeep '_' name.data false)) ++ ext
            | "noSpaces:allLowercase" =>
                String.mk (trimChar '_'
                  (collapseRuns rexKeep '_' (name.data.map goToLower) false)) ++ ext
            | "randomString" => RandomString t hdr.draws 32 ++ ext
            | "" => hdr.filename
            | _ => hdr.filename
          match hdr.createErr with
          | some e => ([], some e)
          | none =>
            match hdr.copyErr with
            | some e => ([], some e)
            | none =>
              (uploadedFiles ++
                [{ NewFileName := newFileName
                   OriginalFileName := hdr.filename
                   FileSize := hdr.size }], none)

/-- The double loop of UploadFiles (lines 84-180): the accumulator is
reassigned from the closure result, so an error reassigns it to nil before
the early return uploadedFiles, err. -/
def uploadLoop (t : Tools) (renameFile : String) :
    List FilePart → List UploadedFile → List UploadedFile × Option String
  | [], acc => (acc, none)
  | hdr :: rest, acc =>
    match uploadClosure t renameFile acc hdr with
    | (acc', some e) => (acc', some e)
    | (acc', none) => uploadLoop t renameFile rest acc'

/-- Filesystem model for directory creation: the list of existing paths,
each tagged with whether it is a directory. -/
abbrev FS := List (String × Bool)

/-- Path existence test, irrespective of entry kind, modelling a successful
os.Stat. -/
def fsExists (fs : FS) (p : String) : Bool :=
  fs.any fun e => e.1 == p

/-- Lists every ancestor of a path obtained by cutting at a separator,
together with the path itself (its last element). -/
def pathAncestorsGo : List Char → List Char → List String
  | [], acc => [String.mk acc.reverse]
  | c :: rest, acc =>
    if c = '/' then String.mk acc.reverse :: pathAncestorsGo rest (c :: acc)
    else pathAncestorsGo rest (c :: acc)

/-- Entry point for the ancestor enumeration. -/
def pathAncestors (p : String) : List String :=
  pathAncestorsGo p.data []

/-- Models os.MkdirAll on a healthy filesystem: records the path and all
missing ancestors as directories. -/
def mkdirAll (fs : FS) (p : String) : FS :=
  (pathAncestors p).foldl
    (fun acc q => if fsExists acc q then acc else (q, true) :: acc) fs

/-- Method CreateDirIfNotExist: os.Stat followed, only when the stat error
satisfies os.IsNotExist, by os.MkdirAll(path, 0755).  The io argument is
the outcome oracle of that MkdirAll call (some e models an underlying I/O
failure); when the path already exists nothing runs and nil is returned. -/
def CreateDirIfNotExist (_t : Tools) (io : Option String) (fs : FS) (path : String) :
    FS × Option String :=
  if fsExists fs path then (fs, none)
  else
    match io with
    | some e => (fs, some e)
    | none => (mkdirAll fs path, none)

/-- Method UploadFiles: resolves the optional rename pattern, substitutes
the 1 GiB MaxFileSize default, ensures the upload directory, parses the
multipart form (parse failure is reported as the size-exceeded error), and
runs the per-part loop.  The returned Tools value is the receiver after the
in-place default substitution; dirOracle is the MkdirAll outcome oracle. -/
def UploadFiles (t : Tools) (fs : FS) (dirOracle : Option String)
    (r : MultipartRequest) (uploadDir : String) (renamePattern : List String) :
    Tools × FS × List UploadedFile × Option String :=
  let renameFile := match renamePattern with | [] => "" | p :: _ => p
  let t := if t.MaxFileSize = 0 then { t with MaxFileSize := 1024 * 1024 * 1024 } else t
  match CreateDirIfNotExist t dirOracle fs uploadDir with
  | (fs, some e) => (t, fs, [], some e)
  | (fs, none) =>
    if r.parseErr then (t, fs, [], some "uploaded file exceeds allowed maximum file size")
    else
      let res := uploadLoop t renameFile r.parts []
      (t, fs, res.1, res.2)

/-- Method UploadOneFile: delegates to UploadFiles and returns files[0].
The Go source indexes without a bounds check, so a successful call with an
empty result slice panics with index out of range; that runtime fault is
modelled by none in the last component (some carries the normal
value-or-error result). -/
def UploadOneFile (t : Tools) (fs : FS) (dirOracle : Option String)
    (r : MultipartRequest) (uploadDir : String) (renamePattern : List String) :
    Tools × FS × Option (Except String UploadedFile) :=
  let renameFile := match renamePattern with | [] => "" | p :: _ => p
  match UploadFiles t fs dirOracle r uploadDir [renameFile] with
  | (t, fs, _, some e) => (t, fs, some (Except.error e))
  | (t, fs, files, none) =>
    match files with
    | [] => (t, fs, none)
    | f :: _ => (t, fs, some (Except.ok f))

/-- Character class of the Slugify regexp [^a-z\d]+: keep is true exactly
on the characters the regexp does NOT match. -/
def isSlugChar (c : Char) : Bool :=
  ('a' ≤ c && c ≤ 'z') || ('0' ≤ c && c ≤ '9')

/-- Method Slugify: rejects the empty string, lowercases, replaces every
maximal run outside [a-z0-9] with a single dash, trims dashes at both ends,
and rejects an empty result. -/
def Slugify (_t : Tools) (s : String) : Except String String :=
  if s = "" then Except.error "empty string not permitted"
  else
    let slug := String.mk (trimChar '-' (collapseRuns isSlugChar '-' (s.data.map goToLower) false))
    if slug.length = 0 then Except.error "after replacing characters, slug length is zero"
    else Except.ok slug

/-- Classified outcome of one json.Decoder.Decode call, mirroring the error
cases distinguished by the switch in ReadJSON.  The eof constructor is the
io.EOF sentinel; unknownField carries what follows the error-text prefix
that the source trims. -/
inductive DecodeErr where
  | syntaxError (offset : Nat)
  | unexpectedEOF
  | unmarshalTypeError (field : String) (offset : Nat)
  | eof
  | unknownField (name : String)
  | tooLarge
  | invalidUnmarshal (msg : String)
  | other (msg : String)
deriving DecidableEq

/-- Outcomes of the two Decode calls ReadJSON performs on a request body:
firstDecode decodes into the caller target, secondDecode probes the
remainder (none meaning the Decode returned nil). -/
structure JSONBody where
  firstDecode : Option DecodeErr
  secondDecode : Option DecodeErr
deriving DecidableEq

/-- The error-classification switch of ReadJSON, producing the user-facing
message for each decode failure. -/
def decodeErrMessage (maxBytes : Nat) : DecodeErr → String
  | DecodeErr.syntaxError offset =>
      "request body contains badly formed JSON: at character " ++ toString offset
  | DecodeErr.unexpectedEOF =>
      "request body contains badly formed JSON at some point within"
  | DecodeErr.unmarshalTypeError field offset =>
      if field ≠ "" then
        "request body contains incorrect JSON type for field \"" ++ field ++ "\""
      else
        "request body contains incorrect JSON type: at character " ++ toString offset
  | DecodeErr.eof => "request body cannot be empty"
  | DecodeErr.unknownField name => "request body contains unknown key: " ++ name
  | DecodeErr.tooLarge =>
      "maximum allowed request body size is " ++ toString maxBytes ++ " bytes"
  | DecodeErr.invalidUnmarshal msg => "error unmarshalling JSON request body: " ++ msg
  | DecodeErr.other msg => msg

/-- Method ReadJSON: applies the MaxJSONPayloadSize default, decodes the
first value (classifying any failure through the switch), then decodes a
probe value and demands the io.EOF sentinel, rejecting any other outcome
with the single-JSON-value error.  The returned Option String is the Go
error result (none is nil). -/
def ReadJSON (t : Tools) (b : JSONBody) : Option String :=
  let maxBytes := if t.MaxJSONPayloadSize ≠ 0 then t.MaxJSONPayloadSize else 1024 * 1024
  match b.firstDecode with
  | some e => some (decodeErrMessage maxBytes e)
  | none =>
    match b.secondDecode with
    | some DecodeErr.eof => none
    | _ => some "response body must only contain one JSON value"

/-- Response of the outbound POST, reduced to the fields the claims are
about: its status code and whether its body has been closed. -/
structure HttpResponse where
  statusCode : Nat
  bodyClosed : Bool
deriving DecidableEq

/-- Method PushJSONToRemoteService: the oracles are the outcomes of
json.Marshal, http.NewRequest and httpClient.Do.  On success the deferred
response.Body.Close() runs before the function returns, so the caller
receives the response with its body already closed, together with the
status code and a nil error; every failure returns (nil, 0, err). -/
def PushJSONToRemoteService (_t : Tools)
    (marshalResult : Except String Unit)
    (buildResult : Except String Unit)
    (doResult : Except String HttpResponse) :
    Option HttpResponse × Nat × Option String :=
  match marshalResult with
  | Except.error e => (none, 0, some e)
  | Except.ok _ =>
    match buildResult with
    | Except.error e => (none, 0, some e)
    | Except.ok _ =>
      match doResult with
      | Except.error e => (none, 0, some e)
      | Except.ok response =>
        (some { response with bodyClosed := true }, response.statusCode, none)

/-! Helper lemmas about the embedding. -/

lemma randomStringSource_data_length : randomStringSource.data.length = 66 := by decide

lemma randomIndex_lt (draws : Nat → Nat) (i : Nat) : randomIndex draws i < 66 := by
  unfold randomIndex
  rw [randomStringSource_data_length]
  exact Nat.mod_lt _ (by decide)

lemma randomIndex_odd (draws : Nat → Nat) (i : Nat) (h : draws i % 2 = 1) :
    randomIndex draws i % 2 = 1 := by
  unfold randomIndex
  rw [randomStringSource_data_length]
  rw [Nat.mod_mod_of_dvd _ (by decide : (2 : Nat) ∣ 66),
    Nat.mod_mod_of_dvd _ (by decide : (2 : Nat) ∣ 18446744073709551616)]
  exact h

lemma RandomString_length (t : Tools) (draws : Nat → Nat) (n : Nat) :
    (RandomString t draws n).length = n := by
  unfold RandomString
  show (List.map _ (List.range n)).length = n
  rw [List.length_map, List.length_range]

lemma RandomString_mem (t : Tools) (draws : Nat → Nat) (n : Nat) (c : Char)
    (hc : c ∈ (RandomString t draws n).data) : c ∈ randomStringSource.data := by
  unfold RandomString at hc
  have hc' : c ∈ (List.range n).map fun i =>
      randomStringSource.data.getD (randomIndex draws i) 'a' := hc
  obtain ⟨i, _, rfl⟩ := List.mem_map.mp hc'
  have hlt : randomIndex draws i < randomStringSource.data.length := by
    rw [randomStringSource_data_length]; exact randomIndex_lt draws i
  rw [List.getD_eq_getElem _ _ hlt]
  exact List.getElem_mem hlt

lemma RandomString_getD (t : Tools) (draws : Nat → Nat) (n i : Nat) (hi : i < n) :
    (RandomString t draws n).data.getD i ' '
      = randomStringSource.data.getD (randomIndex draws i) 'a' := by
  unfold RandomString
  show ((List.range n).map fun j =>
      randomStringSource.data.getD (randomIndex draws j) 'a').getD i ' ' = _
  have hlen : i < ((List.range n).map fun j =>
      randomStringSource.data.getD (randomIndex draws j) 'a').length := by
    rw [List.length_map, List.length_range]; exact hi
  rw [List.getD_eq_getElem _ _ hlen, List.getElem_map, List.getElem_range]

lemma mem_collapseRuns (keep : Char → Bool) (rep : Char) :
    ∀ (cs : List Char) (b : Bool) (c : Char), c ∈ collapseRuns keep rep cs b →
      keep c = true ∨ c = rep := by
  intro cs
  induction cs with
  | nil => intro b c h; simp [collapseRuns] at h
  | cons x rest ih =>
    intro b c h
    unfold collapseRuns at h
    split at h
    · rcases List.mem_cons.mp h with rfl | h'
      · left; assumption
      · exact ih false c h'
    · split at h
      · exact ih true c h
      · rcases List.mem_cons.mp h with rfl | h'
        · right; rfl
        · exact ih true c h'

lemma collapseRuns_chain (keep : Char → Bool) (rep : Char) (hk : keep rep = false) :
    ∀ (cs : List Char) (b : Bool),
      List.Chain' (fun a c => ¬(a = rep ∧ c = rep)) (collapseRuns keep rep cs b)
      ∧ (b = true → ∀ a, (collapseRuns keep rep cs b).head? = some a → a ≠ rep) := by
  intro cs
  induction cs with
  | nil =>
    intro b
    refine ⟨by simp [collapseRuns], ?_⟩
    intro _ a ha
    simp [collapseRuns] at ha
  | cons c rest ih =>
    intro b
    by_cases hc : keep c = true
    · have hred : collapseRuns keep rep (c :: rest) b
          = c :: collapseRuns keep rep rest false := by
        simp [collapseRuns, hc]
      have hcr : c ≠ rep := by
        intro he; rw [he, hk] at hc; exact Bool.noConfusion hc
      constructor
      · rw [hred]
        refine List.chain'_cons'.mpr ⟨?_, (ih false).1⟩
        intro y _ hcon
        exact hcr hcon.1
      · intro _ a ha
        rw [hred] at ha
        simp at ha
        exact ha ▸ hcr
    · have hcf : keep c = false := by
        cases h : keep c
        · rfl
        · exact absurd h hc
      cases b with
      | true =>
        have hred : collapseRuns keep rep (c :: rest) true
            = collapseRuns keep rep rest true := by
          simp [collapseRuns, hcf]
        constructor
        · rw [hred]; exact (ih true).1
        · intro _ a ha
          rw [hred] at ha
          exact (ih true).2 rfl a ha
      | false =>
        have hred : collapseRuns keep rep (c :: rest) false
            = rep :: collapseRuns keep rep rest true := by
          simp [collapseRuns, hcf]
        constructor
        · rw [hred]
          refine List.chain'_cons'.mpr ⟨?_, (ih true).1⟩
          intro y hy hcon
          exact (ih true).2 rfl y hy hcon.2
        · intro hfalse
          exact absurd hfalse (by simp)

lemma dropTrailing_cons (q : Char → Bool) (c : Char) (rest : List Char) :
    dropTrailing q (c :: rest)
      = match dropTrailing q rest with
        | [] => if q c then [] else [c]
        | r => c :: r := rfl

lemma dropTrailing_cons_nil (q : Char → Bool) (c : Char) (rest : List Char)
    (h : dropTrailing q rest = []) :
    dropTrailing q (c :: rest) = if q c then [] else [c] := by
  rw [dropTrailing_cons, h]

lemma dropTrailing_cons_cons (q : Char → Bool) (c : Char) (rest : List Char)
    (r0 : Char) (r' : List Char) (h : dropTrailing q rest = r0 :: r') :
    dropTrailing q (c :: rest) = c :: r0 :: r' := by
  rw [dropTrailing_cons, h]

lemma dropTrailing_leading (q : Char → Bool) : ∀ l : List Char, dropTrailing q l <+: l := by
  intro l
  induction l with
  | nil => exact List.nil_prefix
  | cons c rest ih =>
    cases hres : dropTrailing q rest with
    | nil =>
      rw [dropTrailing_cons_nil q c rest hres]
      split
      · exact List.nil_prefix
      · exact ⟨rest, rfl⟩
    | cons r0 r' =>
      rw [dropTrailing_cons_cons q c rest r0 r' hres]
      rw [hres] at ih
      obtain ⟨tl, htl⟩ := ih
      exact ⟨tl, by rw [List.cons_append, htl]⟩

lemma head?_dropTrailing (q : Char → Bool) (l : List Char) (a : Char)
    (h : (dropTrailing q l).head? = some a) : l.head? = some a := by
  cases l with
  | nil => simp [dropTrailing] at h
  | cons c rest =>
    cases hres : dropTrailing q rest with
    | nil =>
      rw [dropTrailing_cons_nil q c rest hres] at h
      split at h
      · simp at h
      · simp at h
        rw [List.head?_cons, h]
    | cons r0 r' =>
      rw [dropTrailing_cons_cons q c rest r0 r' hres] at h
      simp at h
      rw [List.head?_cons, h]

lemma getLast?_dropTrailing (q : Char → Bool) : ∀ (l : List Char) (a : Char),
    (dropTrailing q l).getLast? = some a → q a = false := by
  intro l
  induction l with
  | nil => intro a h; simp [dropTrailing] at h
  | cons c rest ih =>
    intro a h
    cases hres : dropTrailing q rest with
    | nil =>
      rw [dropTrailing_cons_nil q c rest hres] at h
      split at h
      · simp at h
      · simp at h
        rw [← h]
        rename_i hq
        simpa using hq
    | cons r0 r' =>
      rw [dropTrailing_cons_cons q c rest r0 r' hres] at h
      rw [List.getLast?_cons_cons] at h
      exact ih a (hres ▸ h)

lemma head?_dropWhileChar (q : Char → Bool) : ∀ (l : List Char) (a : Char),
    (l.dropWhile q).head? = some a → q a = false := by
  intro l
  induction l with
  | nil => intro a h; simp at h
  | cons c rest ih =>
    intro a h
    rw [List.dropWhile_cons] at h
    split at h
    · exact ih a h
    · simp at h
      rw [← h]
      rename_i hq
      simpa using hq

lemma chain'_dropWhile {R : Char → Char → Prop} (q : Char → Bool) :
    ∀ l : List Char, List.Chain' R l → List.Chain' R (l.dropWhile q) := by
  intro l
  induction l with
  | nil => intro h; exact h
  | cons c rest ih =>
    intro h
    rw [List.dropWhile_cons]
    split
    · exact ih h.tail
    · exact h

lemma mem_trimChar (cut : Char) (cs : List Char) (c : Char) (h : c ∈ trimChar cut cs) :
    c ∈ cs := by
  unfold trimChar at h
  have h2 : c ∈ cs.dropWhile fun x => x == cut :=
    (dropTrailing_leading _ _).sublist.mem h
  exact (List.dropWhile_sublist _).mem h2

lemma uploadClosure_error_nil (t : Tools) (rf : String) (acc : List UploadedFile)
    (hdr : FilePart) :
    (uploadClosure t rf acc hdr).1 = [] ∨ (uploadClosure t rf acc hdr).2 = none := by
  rcases hdr with ⟨fn, st, oe, re, se, ce, cpe, sz, dr⟩
  cases oe with
  | some e => exact Or.inl rfl
  | none =>
  cases re with
  | some e => exact Or.inl rfl
  | none =>
  cases hA : isAllowedType t st with
  | false =>
    left
    show (if !isAllowedType t st then _ else _ : List UploadedFile × Option String).1 = []
    rw [hA]
    rfl
  | true =>
    cases se with
    | some e =>
      left
      show (if !isAllowedType t st then _ else _ : List UploadedFile × Option String).1 = []
      rw [hA]
      rfl
    | none =>
    cases ce with
    | some e =>
      left
      show (if !isAllowedType t st then _ else _ : List UploadedFile × Option String).1 = []
      rw [hA]
      rfl
    | none =>
    cases cpe with
    | some e =>
      left
      show (if !isAllowedType t st then _ else _ : List UploadedFile × Option String).1 = []
      rw [hA]
      rfl
    | none =>
      right
      show (if !isAllowedType t st then _ else _ : List UploadedFile × Option String).2 = none
      rw [hA]
      rfl

lemma uploadLoop_error_nil (t : Tools) (rf : String) (parts : List FilePart) :
    ∀ (acc : List UploadedFile) (e : String),
      (uploadLoop t rf parts acc).2 = some e → (uploadLoop t rf parts acc).1 = [] := by
  induction parts with
  | nil =>
    intro acc e h
    simp [uploadLoop] at h
  | cons hdr rest ih =>
    intro acc e h
    rw [show uploadLoop t rf (hdr :: rest) acc
        = (match uploadClosure t rf acc hdr with
           | (acc', some e) => (acc', some e)
           | (acc', none) => uploadLoop t rf rest acc') from rfl] at h ⊢
    rcases hc : uploadClosure t rf acc hdr with ⟨acc', e'⟩
    rw [hc] at h
    cases e' with
    | some e2 =>
      rcases uploadClosure_error_nil t rf acc hdr with hn | hnone
      · rw [hc] at hn
        exact hn
      · rw [hc] at hnone
        exact absurd hnone (by simp)
    | none =>
      exact ih acc' e h

lemma fsExists_step_mono (fs : FS) (x q : String) (h : fsExists fs q = true) :
    fsExists (if fsExists fs x then fs else (x, true) :: fs) q = true := by
  split
  · exact h
  · simp only [fsExists, List.any_cons]
    rw [show fsExists fs q = fs.any (fun e => e.1 == q) from rfl] at h
    rw [h]
    simp

lemma fsExists_foldl_mono (l : List String) : ∀ (fs : FS) (q : String),
    fsExists fs q = true →
    fsExists (l.foldl (fun acc x => if fsExists acc x then acc else (x, true) :: acc) fs) q
      = true := by
  induction l with
  | nil => intro fs q h; exact h
  | cons x rest ih =>
    intro fs q h
    exact ih _ q (fsExists_step_mono fs x q h)

lemma fsExists_foldl_of_mem (l : List String) : ∀ (fs : FS) (q : String), q ∈ l →
    fsExists (l.foldl (fun acc x => if fsExists acc x then acc else (x, true) :: acc) fs) q
      = true := by
  induction l with
  | nil => intro fs q h; cases h
  | cons x rest ih =>
    intro fs q h
    rcases List.mem_cons.mp h with rfl | hq
    · rw [List.foldl_cons]
      apply fsExists_foldl_mono
      show fsExists (if fsExists fs q then fs else (q, true) :: fs) q = true
      split
      · assumption
      · simp [fsExists]
    · exact ih _ q hq

lemma mem_pathAncestorsGo : ∀ (cs acc : List Char),
    String.mk (acc.reverse ++ cs) ∈ pathAncestorsGo cs acc := by
  intro cs
  induction cs with
  | nil =>
    intro acc
    simp [pathAncestorsGo]
  | cons c rest ih =>
    intro acc
    unfold pathAncestorsGo
    have hmk : String.mk (acc.reverse ++ c :: rest)
        = String.mk ((c :: acc).reverse ++ rest) := by
      rw [List.reverse_cons, List.append_assoc, List.singleton_append]
    split
    · refine List.mem_cons.mpr (Or.inr ?_)
      rw [hmk]
      exact ih (c :: acc)
    · rw [hmk]
      exact ih (c :: acc)

lemma self_mem_pathAncestors (p : String) : p ∈ pathAncestors p := by
  cases p with
  | mk data =>
    have := mem_pathAncestorsGo data []
    simpa [pathAncestors] using this

lemma mkdirAll_exists_of_mem (fs : FS) (p q : String) (hq : q ∈ pathAncestors p) :
    fsExists (mkdirAll fs p) q = true :=
  fsExists_foldl_of_mem _ fs q hq

lemma mkdirAll_exists_self (fs : FS) (p : String) : fsExists (mkdirAll fs p) p = true :=
  mkdirAll_exists_of_mem fs p p (self_mem_pathAncestors p)

lemma createDir_no_io (t : Tools) (fs : FS) (p : String) :
    ∃ fs', CreateDirIfNotExist t none fs p = (fs', none) := by
  unfold CreateDirIfNotExist
  split
  · exact ⟨fs, rfl⟩
  · exact ⟨mkdirAll fs p, rfl⟩

lemma uploadFiles_fst (t : Tools) (fs : FS) (dirOracle : Option String)
    (r : MultipartRequest) (uploadDir : String) (rp : List String) :
    (UploadFiles t fs dirOracle r uploadDir rp).1
      = if t.MaxFileSize = 0 then { t with MaxFileSize := 1024 * 1024 * 1024 } else t := by
  unfold UploadFiles
  dsimp only
  split
  · rfl
  · split
    · rfl
    · rfl

lemma uploadFiles_no_dir_err (t : Tools) (fs : FS) (r : MultipartRequest)
    (uploadDir : String) (rp : List String) (hp : r.parseErr = false) :
    (UploadFiles t fs none r uploadDir rp).2.2
      = uploadLoop (if t.MaxFileSize = 0 then { t with MaxFileSize := 1024 * 1024 * 1024 } else t)
          (match rp with | [] => "" | p :: _ => p) r.parts [] := by
  unfold UploadFiles
  dsimp only
  obtain ⟨fs', hcd⟩ := createDir_no_io
    (if t.MaxFileSize = 0 then { t with MaxFileSize := 1024 * 1024 * 1024 } else t) fs uploadDir
  rw [hcd, hp]
  rfl

lemma uploadClosure_rejected (t : Tools) (rf : String) (acc : List UploadedFile)
    (p : FilePart) (h1 : p.openErr = none) (h2 : p.readErr = none)
    (h3 : isAllowedType t p.sniffedType = false) :
    uploadClosure t rf acc p = ([], some "the uploaded file type is not permitted") := by
  rcases p with ⟨fn, st, oe, re, se, ce, cpe, sz, dr⟩
  dsimp only at h1 h2 h3
  subst h1
  subst h2
  show (if !isAllowedType t st then _ else _ : List UploadedFile × Option String)
    = ([], some "the uploaded file type is not permitted")
  rw [h3]
  rfl

lemma Slugify_ok_data (t : Tools) (s : String) (hs : s ≠ "") (out : String)
    (h : Slugify t s = Except.ok out) :
    out.data = trimChar '-' (collapseRuns isSlugChar '-' (s.data.map goToLower) false)
    ∧ out ≠ "" := by
  unfold Slugify at h
  rw [if_neg hs] at h
  dsimp only at h
  split at h
  · exact absurd h (by simp)
  · rename_i hlen
    have hout : String.mk (trimChar '-' (collapseRuns isSlugChar '-' (s.data.map goToLower) false))
        = out := by
      injection h
    constructor
    · rw [← hout]
    · intro hempty
      rw [hempty] at hout
      apply hlen
      rw [hout]
      rfl

/-! Claim theorems. -/

/-- Claim C1 counterexample: a two-part request whose first part is
persisted successfully and whose second part has a rejected sniffed type
returns the empty list alongside the error, although the same first part
processed alone yields one UploadedFile record — the accumulated records
are not returned with the error. -/
theorem uploadFiles_partial_counterexample :
    (UploadFiles ⟨["text/plain"], 100, 0, false⟩ [] none
      ⟨false, [⟨"a.txt", "text/plain", none, none, none, none, none, 3, fun _ => 3⟩,
               ⟨"b.bin", "application/pdf", none, none, none, none, none, 5, fun _ => 3⟩]⟩
      "up" [""]).2.2
      = ([], some "the uploaded file type is not permitted")
    ∧ (UploadFiles ⟨["text/plain"], 100, 0, false⟩ [] none
      ⟨false, [⟨"a.txt", "text/plain", none, none, none, none, none, 3, fun _ => 3⟩]⟩
      "up" [""]).2.2
      = ([⟨"a.txt", "a.txt", 3⟩], none) :=
  ⟨rfl, rfl⟩

/-- Claim C1 (amended): whenever UploadFiles returns an error, the list it
returns alongside the error is empty — every error path of the per-part
closure reassigns the accumulator to nil, so the records of earlier
successfully persisted parts are discarded (their files stay on disk but
are not reported). -/
theorem uploadFiles_error_discards_records (t : Tools) (fs : FS) (dirOracle : Option String)
    (r : MultipartRequest) (uploadDir : String) (rp : List String) (e : String)
    (h : (UploadFiles t fs dirOracle r uploadDir rp).2.2.2 = some e) :
    (UploadFiles t fs dirOracle r uploadDir rp).2.2.1 = [] := by
  unfold UploadFiles at h ⊢
  dsimp only at h ⊢
  rcases hcd : CreateDirIfNotExist
      (if t.MaxFileSize = 0 then { t with MaxFileSize := 1024 * 1024 * 1024 } else t)
      dirOracle fs uploadDir with ⟨fs', e'⟩
  rw [hcd] at h
  cases e' with
  | some e2 => rfl
  | none =>
    rcases Bool.eq_false_or_eq_true r.parseErr with hp | hp
    · rw [hp] at h ⊢
      rfl
    · rw [hp] at h ⊢
      exact uploadLoop_error_nil _ _ _ [] e h

/-- Claim C1 amended-theorem witness at the counterexample input. -/
theorem uploadFiles_error_discards_records_witness :
    (UploadFiles ⟨["text/plain"], 100, 0, false⟩ [] none
      ⟨false, [⟨"a.txt", "text/plain", none, none, none, none, none, 3, fun _ => 3⟩,
               ⟨"b.bin", "application/pdf", none, none, none, none, none, 5, fun _ => 3⟩]⟩
      "up" [""]).2.2.1 = [] :=
  uploadFiles_error_discards_records ⟨["text/plain"], 100, 0, false⟩ [] none
    ⟨false, [⟨"a.txt", "text/plain", none, none, none, none, none, 3, fun _ => 3⟩,
             ⟨"b.bin", "application/pdf", none, none, none, none, none, 5, fun _ => 3⟩]⟩
    "up" [""] "the uploaded file type is not permitted" rfl

/-- Claim C2 evaluation: a request that parses successfully but contains
zero file parts makes UploadFiles succeed with an empty slice, after which
UploadOneFile evaluates files[0] on that empty slice; the none result
models the unguarded index-out-of-range runtime panic, not an error
return. -/
theorem uploadOneFile_zero_parts_fault :
    (UploadOneFile ⟨[], 0, 0, false⟩ [] none ⟨false, []⟩ "up" []).2.2 = none := rfl

/-- Claim C3 counterexample: the alphabet RandomString draws from has 66
characters, not 64, and contains the four symbol characters underscore,
plus, hyphen and equals, not three symbols. -/
theorem randomStringSource_not_64_chars :
    randomStringSource.length = 66 ∧ randomStringSource.length ≠ 64
    ∧ '_' ∈ randomStringSource.data ∧ '+' ∈ randomStringSource.data
    ∧ '-' ∈ randomStringSource.data ∧ '=' ∈ randomStringSource.data := by
  refine ⟨by decide, by decide, by decide, by decide, by decide, by decide⟩

/-- Claim C3 (amended): RandomString returns a string of exactly n
characters, each taken from the fixed 66-character alphabet at the index
obtained by truncating the drawn prime to 64 bits and reducing modulo 66;
as every drawn prime is odd, only odd alphabet indices can occur, so the
selection is not uniform over the alphabet. -/
theorem RandomString_length_and_alphabet (t : Tools) (draws : Nat → Nat) (n : Nat)
    (hodd : ∀ i, draws i % 2 = 1) :
    (RandomString t draws n).length = n
    ∧ (∀ c ∈ (RandomString t draws n).data, c ∈ randomStringSource.data)
    ∧ (∀ i, i < n →
        (RandomString t draws n).data.getD i ' '
          = randomStringSource.data.getD (randomIndex draws i) 'a'
        ∧ randomIndex draws i < 66 ∧ randomIndex draws i % 2 = 1)
    ∧ randomStringSource.length = 66 := by
  refine ⟨RandomString_length t draws n, ?_, ?_, by decide⟩
  · intro c hc
    exact RandomString_mem t draws n c hc
  · intro i hi
    exact ⟨RandomString_getD t draws n i hi, randomIndex_lt draws i,
      randomIndex_odd draws i (hodd i)⟩

/-- Claim C3 amended-theorem witness. -/
theorem RandomString_length_and_alphabet_witness :
    (RandomString ⟨[], 0, 0, false⟩ (fun _ => 3) 10).length = 10 :=
  (RandomString_length_and_alphabet ⟨[], 0, 0, false⟩ (fun _ => 3) 10 (fun _ => (rfl : (3 : Nat) % 2 = 1))).1

/-- Claim C4: after a successful first decode ReadJSON probes the remainder
with a second decode; it returns nil exactly when that probe reports the
clean end-of-input sentinel, and whenever the remainder holds a second
top-level JSON value or any other trailing content it fails with the
single-JSON-value error. -/
theorem readJSON_single_value_only (t : Tools) (b : JSONBody) :
    (ReadJSON t b = none ↔ b.firstDecode = none ∧ b.secondDecode = some DecodeErr.eof)
    ∧ (b.firstDecode = none → b.secondDecode ≠ some DecodeErr.eof →
        ReadJSON t b = some "response body must only contain one JSON value") := by
  obtain ⟨f, s⟩ := b
  constructor
  · cases f with
    | some e => simp [ReadJSON]
    | none =>
      cases s with
      | none => simp [ReadJSON]
      | some e => cases e <;> simp [ReadJSON]
  · intro h1 h2
    dsimp only at h1 h2
    subst h1
    cases s with
    | none => rfl
    | some e => cases e <;> first | rfl | exact absurd rfl h2

/-- Claim C4 witness: a body whose first value decodes and whose remainder
starts a second JSON value (probe reports a syntax error, not io.EOF) is
rejected with the single-JSON-value error. -/
theorem readJSON_single_value_only_witness :
    ReadJSON ⟨[], 0, 0, false⟩ ⟨none, some (DecodeErr.syntaxError 12)⟩
      = some "response body must only contain one JSON value" :=
  (readJSON_single_value_only ⟨[], 0, 0, false⟩ ⟨none, some (DecodeErr.syntaxError 12)⟩).2
    rfl (by decide)

/-- Claim C5: an empty AllowedFileTypes list accepts every sniffed type; a
non-empty list none of whose entries case-insensitively equals the sniffed
type rejects it, and the call then stops at the first rejected part,
returning the constant type-not-permitted error (naming no file) with an
empty record list, whatever parts remain. -/
theorem uploadFiles_type_check (t : Tools) (ft rf : String) (p : FilePart)
    (rest : List FilePart) (acc : List UploadedFile) (fs : FS)
    (r : MultipartRequest) (uploadDir : String) (rp : List String) :
    (t.AllowedFileTypes = [] → isAllowedType t ft = true)
    ∧ (t.AllowedFileTypes ≠ [] → (∀ a ∈ t.AllowedFileTypes, equalFold ft a = false) →
        isAllowedType t ft = false)
    ∧ (p.openErr = none → p.readErr = none → isAllowedType t p.sniffedType = false →
        uploadLoop t rf (p :: rest) acc
          = ([], some "the uploaded file type is not permitted"))
    ∧ (t.MaxFileSize ≠ 0 → p.openErr = none → p.readErr = none →
        isAllowedType t p.sniffedType = false →
        r.parseErr = false → r.parts = p :: rest →
        (UploadFiles t fs none r uploadDir rp).2.2
          = ([], some "the uploaded file type is not permitted")) := by
  refine ⟨?_, ?_, ?_, ?_⟩
  · intro h
    simp [isAllowedType, h]
  · intro hne hall
    unfold isAllowedType
    rw [if_pos]
    · exact List.any_eq_false.mpr (by intro x hx; rw [hall x hx]; simp)
    · exact List.length_pos.mpr hne
  · intro h1 h2 h3
    rw [show uploadLoop t rf (p :: rest) acc
        = (match uploadClosure t rf acc p with
           | (acc', some e) => (acc', some e)
           | (acc', none) => uploadLoop t rf rest acc') from rfl]
    rw [uploadClosure_rejected t rf acc p h1 h2 h3]
  · intro hmax h1 h2 h3 hp hparts
    rw [uploadFiles_no_dir_err t fs r uploadDir rp hp, if_neg hmax, hparts]
    rw [show uploadLoop t (match rp with | [] => "" | q :: _ => q) (p :: rest) []
        = (match uploadClosure t (match rp with | [] => "" | q :: _ => q) [] p with
           | (acc', some e) => (acc', some e)
           | (acc', none) => uploadLoop t (match rp with | [] => "" | q :: _ => q) rest acc')
        from rfl]
    rw [uploadClosure_rejected t _ [] p h1 h2 h3]

/-- Claim C5 witness: a first part sniffed as application/pdf against the
allowed list [image/png] stops the loop at once with the constant error,
even though a second, acceptable part follows. -/
theorem uploadFiles_type_check_witness :
    uploadLoop ⟨["image/png"], 50, 0, false⟩ ""
      [⟨"b.pdf", "application/pdf", none, none, none, none, none, 5, fun _ => 3⟩,
       ⟨"c.png", "image/png", none, none, none, none, none, 4, fun _ => 3⟩] []
      = ([], some "the uploaded file type is not permitted") :=
  (uploadFiles_type_check ⟨["image/png"], 50, 0, false⟩ "application/pdf" ""
      ⟨"b.pdf", "application/pdf", none, none, none, none, none, 5, fun _ => 3⟩
      [⟨"c.png", "image/png", none, none, none, none, none, 4, fun _ => 3⟩] [] []
      ⟨false, []⟩ "up" []).2.2.1 rfl rfl rfl

/-- Claim C6: Slugify rejects empty input, produces the spec's concrete
example outputs, and every successful result is a nonempty string over
[a-z0-9] and dashes with no leading dash, no trailing dash, and no two
adjacent dashes (each rejected run collapsed to a single dash, ends
trimmed); an input whose collapsed, trimmed form is empty is rejected with
the empty-result error. -/
theorem Slugify_spec (t : Tools) (s : String) (hs : s ≠ "") :
    Slugify t "" = Except.error "empty string not permitted"
    ∧ Slugify t "mary had a little lamb" = Except.ok "mary-had-a-little-lamb"
    ∧ Slugify t "Γειά σου Κόσμε" = Except.error "after replacing characters, slug length is zero"
    ∧ Slugify t "Hello Γειά σου Κόσμε World" = Except.ok "hello-world"
    ∧ (∀ out, Slugify t s = Except.ok out →
        out ≠ ""
        ∧ (∀ c ∈ out.data, isSlugChar c = true ∨ c = '-')
        ∧ (∀ a, out.data.head? = some a → a ≠ '-')
        ∧ (∀ a, out.data.getLast? = some a → a ≠ '-')
        ∧ List.Chain' (fun a c => ¬(a = '-' ∧ c = '-')) out.data) := by
  refine ⟨rfl, rfl, rfl, rfl, ?_⟩
  intro out hout
  obtain ⟨hdata, hne⟩ := Slugify_ok_data t s hs out hout
  refine ⟨hne, ?_, ?_, ?_, ?_⟩
  · intro c hc
    rw [hdata] at hc
    exact mem_collapseRuns isSlugChar '-' _ false c (mem_trimChar '-' _ c hc)
  · intro a ha
    rw [hdata] at ha
    have h1 := head?_dropTrailing _ _ a ha
    have h2 := head?_dropWhileChar _ _ a h1
    intro had
    rw [had] at h2
    simp at h2
  · intro a ha
    rw [hdata] at ha
    have h1 := getLast?_dropTrailing _ _ a ha
    intro had
    rw [had] at h1
    simp at h1
  · rw [hdata]
    have hchain := (collapseRuns_chain isSlugChar '-' (by decide)
      (s.data.map goToLower) false).1
    exact List.Chain'.prefix (chain'_dropWhile _ _ hchain) (dropTrailing_leading _ _)

/-- Claim C6 witness at a concrete nonempty input. -/
theorem Slugify_spec_witness :
    Slugify ⟨[], 0, 0, false⟩ "mary had a little lamb" = Except.ok "mary-had-a-little-lamb" :=
  (Slugify_spec ⟨[], 0, 0, false⟩ "x" (by decide)).2.1

/-- Claim C7: PushJSONToRemoteService returns (nil, 0, err) whenever the
marshal, the request construction, or the POST itself fails; on success it
returns the response — whose body the deferred Close has already closed —
together with that response's status code and a nil error. -/
theorem pushJSON_spec (t : Tools) (m b : Except String Unit)
    (d : Except String HttpResponse) :
    (∀ e, m = Except.error e → PushJSONToRemoteService t m b d = (none, 0, some e))
    ∧ (∀ e, b = Except.error e →
        PushJSONToRemoteService t (Except.ok ()) b d = (none, 0, some e))
    ∧ (∀ e, d = Except.error e →
        PushJSONToRemoteService t (Except.ok ()) (Except.ok ()) d = (none, 0, some e))
    ∧ (∀ resp, d = Except.ok resp →
        PushJSONToRemoteService t (Except.ok ()) (Except.ok ()) d
          = (some { statusCode := resp.statusCode, bodyClosed := true },
             resp.statusCode, none)) := by
  refine ⟨?_, ?_, ?_, ?_⟩ <;> rintro x rfl <;> rfl

/-- Claim C7 witness: a successful POST hands back the closed response and
its status code. -/
theorem pushJSON_spec_witness :
    PushJSONToRemoteService ⟨[], 0, 0, false⟩ (Except.ok ()) (Except.ok ())
      (Except.ok ⟨200, false⟩)
      = (some ⟨200, true⟩, 200, none) :=
  (pushJSON_spec ⟨[], 0, 0, false⟩ (Except.ok ()) (Except.ok ())
    (Except.ok ⟨200, false⟩)).2.2.2 ⟨200, false⟩ rfl

/-- Claim C8: a call on a Tools value whose MaxFileSize is zero yields the
receiver with MaxFileSize set to 1 GiB, and AllowedFileTypes,
MaxJSONPayloadSize and AllowUnknownFields unchanged. -/
theorem uploadFiles_default_maxFileSize (t : Tools) (fs : FS) (dirOracle : Option String)
    (r : MultipartRequest) (uploadDir : String) (rp : List String)
    (h : t.MaxFileSize = 0) :
    (UploadFiles t fs dirOracle r uploadDir rp).1.MaxFileSize = 1024 * 1024 * 1024
    ∧ (UploadFiles t fs dirOracle r uploadDir rp).1.AllowedFileTypes = t.AllowedFileTypes
    ∧ (UploadFiles t fs dirOracle r uploadDir rp).1.MaxJSONPayloadSize = t.MaxJSONPayloadSize
    ∧ (UploadFiles t fs dirOracle r uploadDir rp).1.AllowUnknownFields = t.AllowUnknownFields := by
  rw [uploadFiles_fst, if_pos h]
  exact ⟨rfl, rfl, rfl, rfl⟩

/-- Claim C8 witness. -/
theorem uploadFiles_default_maxFileSize_witness :
    (UploadFiles ⟨["image/png"], 0, 7, true⟩ [] none ⟨false, []⟩ "up" []).1.MaxFileSize
      = 1024 * 1024 * 1024 :=
  (uploadFiles_default_maxFileSize ⟨["image/png"], 0, 7, true⟩ [] none ⟨false, []⟩
    "up" [] rfl).1

/-- Claim C9: with a healthy filesystem CreateDirIfNotExist succeeds twice
in a row on the same path: the first call creates the path and every
missing ancestor when absent and is a no-op when the path exists (whatever
kind of entry it is), the second call finds the path and changes nothing;
an error is returned exactly when the underlying MkdirAll I/O fails, which
requires the path not to have existed. -/
theorem createDir_idempotent (t : Tools) (fs : FS) (p : String) :
    (CreateDirIfNotExist t none fs p).2 = none
    ∧ (CreateDirIfNotExist t none (CreateDirIfNotExist t none fs p).1 p).2 = none
    ∧ (CreateDirIfNotExist t none (CreateDirIfNotExist t none fs p).1 p).1
        = (CreateDirIfNotExist t none fs p).1
    ∧ (fsExists fs p = true → (CreateDirIfNotExist t none fs p).1 = fs)
    ∧ (fsExists fs p = false →
        ∀ q ∈ pathAncestors p, fsExists (CreateDirIfNotExist t none fs p).1 q = true)
    ∧ (∀ io e, (CreateDirIfNotExist t io fs p).2 = some e →
        io = some e ∧ fsExists fs p = false) := by
  have hafter : ∀ fs1 : FS, fsExists fs1 p = true →
      CreateDirIfNotExist t none fs1 p = (fs1, none) := by
    intro fs1 h1
    unfold CreateDirIfNotExist
    rw [if_pos h1]
  by_cases hex : fsExists fs p = true
  · have h1 : CreateDirIfNotExist t none fs p = (fs, none) := hafter fs hex
    refine ⟨by rw [h1], ?_, ?_, ?_, ?_, ?_⟩
    · rw [h1]
      rw [hafter fs hex]
    · rw [h1]
      rw [hafter fs hex]
    · intro _
      rw [h1]
    · intro hcontra
      rw [hex] at hcontra
      exact absurd hcontra (by simp)
    · intro io e h
      unfold CreateDirIfNotExist at h
      rw [if_pos hex] at h
      exact absurd h (by simp)
  · have hex' : fsExists fs p = false := by
      cases hval : fsExists fs p
      · rfl
      · exact absurd hval hex
    have h1 : CreateDirIfNotExist t none fs p = (mkdirAll fs p, none) := by
      unfold CreateDirIfNotExist
      rw [if_neg hex]
    have hmk : fsExists (mkdirAll fs p) p = true := mkdirAll_exists_self fs p
    refine ⟨by rw [h1], ?_, ?_, ?_, ?_, ?_⟩
    · rw [h1]
      rw [hafter (mkdirAll fs p) hmk]
    · rw [h1]
      rw [hafter (mkdirAll fs p) hmk]
    · intro hcontra
      exact absurd hcontra hex
    · intro _ q hq
      rw [h1]
      exact mkdirAll_exists_of_mem fs p q hq
    · intro io e h
      unfold CreateDirIfNotExist at h
      rw [if_neg hex] at h
      cases io with
      | none => exact absurd h (by simp)
      | some e0 =>
        refine ⟨?_, hex'⟩
        simp at h
        rw [h]

/-- Claim C9 witness: creating a/b in an empty filesystem also creates the
ancestor a, and the call reports no error. -/
theorem createDir_idempotent_witness :
    fsExists (CreateDirIfNotExist ⟨[], 0, 0, false⟩ none [] "a/b").1 "a" = true
    ∧ (CreateDirIfNotExist ⟨[], 0, 0, false⟩ none [] "a/b").2 = none :=
  ⟨(createDir_idempotent ⟨[], 0, 0, false⟩ [] "a/b").2.2.2.2.1 rfl "a" (by decide),
   (createDir_idempotent ⟨[], 0, 0, false⟩ [] "a/b").1⟩

/-- Claim C10: under the randomString rename pattern a successfully
processed part is recorded with a stored name that is exactly the
32-character string produced by t.RandomString(32) concatenated with the
original file name's extension, preserved verbatim. -/
theorem uploadClosure_randomString_name (t : Tools) (acc : List UploadedFile)
    (p : FilePart) (h1 : p.openErr = none) (h2 : p.readErr = none)
    (h3 : isAllowedType t p.sniffedType = true) (h4 : p.seekErr = none)
    (h5 : p.createErr = none) (h6 : p.copyErr = none) :
    uploadClosure t "randomString" acc p
      = (acc ++ [{ NewFileName := RandomString t p.draws 32 ++ filepathExt p.filename,
                   OriginalFileName := p.filename, FileSize := p.size }], none)
    ∧ (RandomString t p.draws 32).length = 32 := by
  constructor
  · rcases p with ⟨fn, st, oe, re, se, ce, cpe, sz, dr⟩
    dsimp only at h1 h2 h3 h4 h5 h6
    subst h1
    subst h2
    subst h4
    subst h5
    subst h6
    show (if !isAllowedType t st then _ else _ : List UploadedFile × Option String) = _
    rw [h3]
    rfl
  · exact RandomString_length t p.draws 32

/-- Claim C10 witness at a concrete png part. -/
theorem uploadClosure_randomString_name_witness :
    uploadClosure ⟨[], 0, 0, false⟩ "randomString" []
      ⟨"img.png", "image/png", none, none, none, none, none, 7, fun _ => 3⟩
      = ([⟨RandomString ⟨[], 0, 0, false⟩ (fun _ => 3) 32 ++ ".png", "img.png", 7⟩], none)
    ∧ (RandomString ⟨[], 0, 0, false⟩ (fun _ => 3) 32).length = 32 :=
  uploadClosure_randomString_name ⟨[], 0, 0, false⟩ []
    ⟨"img.png", "image/png", none, none, none, none, none, 7, fun _ => 3⟩
    rfl rfl rfl rfl rfl rfl
